import Mathlib

/-!
# Verification of yawbdl (Yet Another Wayback Downloader)

Shallow embedding of `yawbdl.py` and proofs about it.  Python strings are
modelled as lists of unicode code points (`Str`), the filesystem and the
network are modelled as explicit oracles, and each source function is
translated into a Lean function of the same name.
-/

namespace Yawbdl

/-- Python strings, as lists of unicode code points. -/
abbrev Str := List Char

/-- A snapshot record `(timestamp, original_url)`, as in `Snapshot = tuple[str, str]`. -/
abbrev Snap := Str × Str

/-- Python lexicographic string comparison `s <= t` (code-point order). -/
def strLe : Str → Str → Bool
  | [], _ => true
  | _ :: _, [] => false
  | a :: as, b :: bs =>
    if a.toNat < b.toNat then true
    else if a.toNat = b.toNat then strLe as bs
    else false

/-- Python `s.ljust(w, c)`: pad on the right with `c` up to width `w`. -/
def ljust (s : Str) (w : Nat) (c : Char) : Str :=
  s ++ List.replicate (w - s.length) c

/-- The target operating system, `os.name == "nt"` versus POSIX. -/
inductive Platform where
  | windows
  | posix
deriving DecidableEq

/-- Model of `os.path.sep` for each platform. -/
def sep : Platform → Char
  | .windows => '\\'
  | .posix => '/'

/-- Characters `os.path` treats as separators on each platform. -/
def isSepChar : Platform → Char → Bool
  | .posix, c => c = '/'
  | .windows, c => c = '\\' || c = '/'

/-- Restricted characters of the Windows branch of `url_to_path`:
the regex class of backslash, pipe, colon, double quote, star, angle
brackets, and the control ranges 0x00-0x1F and 0x80-0x9F. -/
def isRestrictedWin (c : Char) : Bool :=
  c = '\\' || c = '|' || c = ':' || c = '"' || c = '*' || c = '<' || c = '>' ||
    c.toNat ≤ 0x1F || (0x80 ≤ c.toNat && c.toNat ≤ 0x9F)

/-- Restricted characters of the Unix branch of `url_to_path`:
just the control ranges 0x00-0x1F and 0x80-0x9F. -/
def isRestrictedPosix (c : Char) : Bool :=
  c.toNat ≤ 0x1F || (0x80 ≤ c.toNat && c.toNat ≤ 0x9F)

/-- Python `f"{n:02X}"`: uppercase hex, left-padded with zeros to width 2. -/
def fmt02X (n : Nat) : Str :=
  let h := (Nat.toDigits 16 n).map Char.toUpper
  if h.length < 2 then '0' :: h else h

/-- Percent-escape one character if it is in the restricted set. -/
def escapeChar (restricted : Char → Bool) (c : Char) : Str :=
  if restricted c then '%' :: fmt02X c.toNat else [c]

/-- Model of `url_to_path`: percent-encode restricted characters; on Windows then
replace every question mark with an at sign.  Forward slashes are preserved. -/
def url_to_path (pl : Platform) (url : Str) : Str :=
  match pl with
  | .windows =>
    ((url.map (escapeChar isRestrictedWin)).flatten).map
      (fun c => if c = '?' then '@' else c)
  | .posix => (url.map (escapeChar isRestrictedPosix)).flatten

/-- Characters allowed in a URL scheme (`scheme_chars` of `urllib.parse`). -/
def isSchemeChar (c : Char) : Bool :=
  c.isAlpha || c.isDigit || c = '+' || c = '-' || c = '.'

/-- Split a list at the first occurrence of `c`: the part before it and,
when `c` occurs, the part after it. -/
def splitAtFirst (c : Char) : Str → Str × Option Str
  | [] => ([], none)
  | x :: xs =>
    if x = c then ([], some xs)
    else
      let r := splitAtFirst c xs
      (x :: r.1, r.2)

/-- Scheme extraction of `urllib.parse.urlsplit`: a nonempty prefix of scheme
characters starting with a letter, followed by a colon. -/
def splitScheme (url : Str) : Str × Str :=
  match splitAtFirst ':' url with
  | (pre, some rest) =>
    match pre with
    | [] => ([], url)
    | c :: _ =>
      if c.isAlpha && pre.all isSchemeChar then (pre.map Char.toLower, rest)
      else ([], url)
  | (_, none) => ([], url)

/-- A character that does not end the netloc portion of a URL. -/
def isNetlocChar (c : Char) : Bool :=
  !(c = '/' || c = '?' || c = '#')

/-- Netloc extraction of `urlsplit`: after a leading double slash, up to the
next slash, question mark or hash. -/
def splitNetloc (s : Str) : Str × Str :=
  match s with
  | '/' :: '/' :: rest => (rest.takeWhile isNetlocChar, rest.dropWhile isNetlocChar)
  | _ => ([], s)

/-- Split off the fragment at the first hash sign. -/
def splitFragment (s : Str) : Str × Str :=
  match splitAtFirst '#' s with
  | (pre, some post) => (pre, post)
  | (_, none) => (s, [])

/-- Split off the query at the first question mark. -/
def splitQuery (s : Str) : Str × Str :=
  match splitAtFirst '?' s with
  | (pre, some post) => (pre, post)
  | (_, none) => (s, [])

/-- Result of `urllib.parse.urlsplit`. -/
structure UrlParts where
  scheme : Str
  netloc : Str
  upath : Str
  query : Str
  fragment : Str
deriving DecidableEq

/-- Model of `urllib.parse.urlsplit`: scheme, then netloc, then fragment, then query. -/
def urlsplit (url : Str) : UrlParts :=
  let s1 := splitScheme url
  let s2 := splitNetloc s1.2
  let s3 := splitFragment s2.2
  let s4 := splitQuery s3.1
  ⟨s1.1, s2.1, s4.1, s4.2, s3.2⟩

/-- Does the path end with a character `os.path.join` treats as needing no
separator before the next component? -/
def endsWithSepChar (pl : Platform) (a : Str) : Bool :=
  match a.getLast? with
  | some c => c = sep pl || (pl = Platform.windows && (c = '/' || c = ':'))
  | none => false

/-- Model of `os.path.join(a, b)` for a single relative component `b`. -/
def pathJoin (pl : Platform) (a b : Str) : Str :=
  if b.head? = some (sep pl) then b
  else if a.isEmpty then b
  else if endsWithSepChar pl a then a ++ b
  else a ++ sep pl :: b

/-- Model of `get_file_path`: path and query of the URL, sanitized, slashes turned into
the platform separator, with `index.html` appended for directory-like URLs. -/
def get_file_path (pl : Platform) (original_url : Str) : Str :=
  let u := urlsplit original_url
  let f1 := u.upath.dropWhile (fun c => c = '/')
  let f2 := if u.query.isEmpty then f1 else f1 ++ '?' :: u.query
  let f3 := url_to_path pl f2
  let f4 := f3.map (fun c => if c = '/' then sep pl else c)
  if f4.getLast? = some (sep pl) || f4.isEmpty then
    pathJoin pl f4 ("index.html".data)
  else f4

/-- The final path segment: everything after the last platform separator. -/
def lastSegment (pl : Platform) (s : Str) : Str :=
  (s.reverse.takeWhile (fun c => c ≠ sep pl)).reverse

/-- Model of `os.path.splitext`: split off the extension at the last dot of the last
path segment, unless that segment consists of leading dots only. -/
def splitext (pl : Platform) (p : Str) : Str × Str :=
  let baseRev := p.reverse.takeWhile (fun c => !(isSepChar pl c))
  match splitAtFirst '.' baseRev with
  | (extRev, some restRev) =>
    if restRev.any (fun c => c ≠ '.') then
      (p.take (p.length - (extRev.length + 1)), p.drop (p.length - (extRev.length + 1)))
    else (p, [])
  | (_, none) => (p, [])

/-- Model of `get_hashed_file_path`: SHA-1 hex digest of the URL plus the URL path's
extension (default `.html`), joined under the timestamp directory.  The digest
function itself is library code (`hashlib`), passed in as a parameter. -/
def get_hashed_file_path (pl : Platform) (sha1hex : Str → Str)
    (original_url timestamp_dir : Str) : Str × Str :=
  let file_hash := sha1hex original_url
  let ext := (splitext pl (urlsplit original_url).upath).2
  let file_ext := if ext.isEmpty then ".html".data else ext
  let hashed_filename := file_hash ++ file_ext
  (pathJoin pl timestamp_dir hashed_filename, hashed_filename)

/-! ## The retry wrapper `retry_download` -/

/-- One attempt made by the retry wrapper: its zero-based number
(`retry_count`) and the seconds slept immediately before it. -/
structure AttemptRec where
  idx : Nat
  sleepBefore : Nat
deriving DecidableEq

/-- How an invocation of a retry-wrapped function ends: with the wrapped
function's value, with `None` (no-fail mode), or with `sys.exit(code)`. -/
inductive ROutcome (α : Type) where
  | val : α → ROutcome α
  | failSkip : ROutcome α
  | abort : Nat → ROutcome α
deriving DecidableEq

/-- The loop of `retry_download`'s wrapper.  `rc` is `retry_count`, `fuel` is
`RETRIES - retry_count`; attempt `rc` sleeps `DELAY * 2 * rc` seconds first
(the code skips the `time.sleep` call when `DELAY` is zero or on the first
attempt).  The oracle `f` tells, for each attempt number, whether the wrapped
call returns a value or raises.  On exhaustion the wrapper returns `None` when
it has a URL context and `NO_FAIL` is set, and calls `sys.exit(1)` otherwise. -/
def retryRunAux (delay : Nat) (noFail hasCtx : Bool) (f : Nat → Except Unit α) :
    Nat → Nat → List AttemptRec × ROutcome α
  | rc, fuel =>
    let slp := if delay ≠ 0 && rc > 0 then delay * 2 * rc else 0
    match f rc with
    | .ok a => ([⟨rc, slp⟩], .val a)
    | .error _ =>
      match fuel with
      | 0 => ([⟨rc, slp⟩], if hasCtx && noFail then .failSkip else .abort 1)
      | fuel' + 1 =>
        let r := retryRunAux delay noFail hasCtx f (rc + 1) fuel'
        (⟨rc, slp⟩ :: r.1, r.2)

/-- One invocation of a function wrapped by `retry_download`: the list of
attempts actually made (with their backoff sleeps) and the final outcome. -/
def retryRun (retries delay : Nat) (noFail hasCtx : Bool)
    (f : Nat → Except Unit α) : List AttemptRec × ROutcome α :=
  retryRunAux delay noFail hasCtx f 0 retries

/-! ## The snapshot index (`get_snapshot_list`) -/

/-- The parsed response of the CDX index fetch: HTTP status and the decoded
JSON body (a list of `(timestamp, original)` rows including the header row). -/
structure IndexResp where
  status_code : Nat
  body : List Snap
deriving DecidableEq

/-- Result of `get_snapshot_list`: either `sys.exit(code)` (the flag records
whether the "no snapshots found" notice was emitted) or the final record
list. -/
inductive IndexResult where
  | exit : Nat → Bool → IndexResult
  | ok : List Snap → IndexResult
deriving DecidableEq

/-- Python truthiness of an optional string argument: `None` and the empty
string are falsy. -/
def truthy : Option Str → Bool
  | none => false
  | some s => !s.isEmpty

/-- The timestamp-range predicate of `get_snapshot_list`:
`(not from or t >= from.ljust(14,'0')) and (not to or t <= to.ljust(14,'0'))`. -/
def timeFilterPred (fromD toD : Option Str) (s : Snap) : Bool :=
  (!(truthy fromD) || strLe (ljust (fromD.getD []) 14 '0') s.1) &&
    (!(truthy toD) || strLe s.1 (ljust (toD.getD []) 14 '0'))

/-- The timestamp filtering step: applied only when a `from` or `to` bound
was supplied (truthy). -/
def applyTimeFilter (fromD toD : Option Str) (l : List Snap) : List Snap :=
  if truthy fromD || truthy toD then l.filter (timeFilterPred fromD toD) else l

/-- Ordering of snapshots by timestamp, as used with
`snap_list.sort(key=get_snapshot_timestamp)`. -/
def snapLe (a b : Snap) : Prop := strLe a.1 b.1 = true

instance : DecidableRel snapLe := fun a b =>
  inferInstanceAs (Decidable (strLe a.1 b.1 = true))

/-- A Python dict as an insertion-ordered association list: assigning to an
existing key overwrites its value in place, a new key is appended. -/
def dictInsert (m : List (Str × Snap)) (k : Str) (v : Snap) : List (Str × Snap) :=
  if ∃ p ∈ m, p.1 = k then m.map (fun p => if p.1 = k then (k, v) else p)
  else m ++ [(k, v)]

/-- The dict built by `for snap in snapshot_list: url_to_latest[url] = snap`. -/
def dictOf (l : List Snap) : List (Str × Snap) :=
  l.foldl (fun m s => dictInsert m s.2 s) []

/-- Model of `get_latest_snapshots`: keep the last dict value per URL, then re-sort
ascending by timestamp (Python `list.sort` is stable; insertion sort is the
corresponding stable sort). -/
def get_latest_snapshots (l : List Snap) : List Snap :=
  List.insertionSort snapLe ((dictOf l).map Prod.snd)

/-- Association-list lookup by key (first match), for reasoning about the
dict model. -/
def alookup (k : Str) : List (Str × Snap) → Option Snap
  | [] => none
  | p :: m => if p.1 = k then some p.2 else alookup k m

/-- The last record with the given URL, if any — what the dict ends up
holding for that URL. -/
def lastWith (k : Str) (l : List Snap) : Option Snap :=
  l.reverse.find? (fun s => s.2 = k)

/-- Model of `get_snapshot_list`, over a cache oracle (`snapshots.json` contents, if
the file parsed) and a fetch oracle for the retry-wrapped index request.
`fetch_snapshots` carries no `_url_context`, so its retry wrapper aborts on
exhaustion regardless of `NO_FAIL`. -/
def get_snapshot_list (retries delay : Nat) (noFail : Bool)
    (fromD toD : Option Str) (latestOnly : Bool)
    (cache : Option (List Snap)) (idxF : Nat → Except Unit IndexResp) : IndexResult :=
  let fetched : IndexResult :=
    match cache with
    | some l => .ok l
    | none =>
      match (retryRun retries delay noFail false idxF).2 with
      | .abort c => .exit c false
      | .failSkip => .exit 1 false
      | .val resp =>
        if resp.status_code ≠ 200 then .exit 1 false else .ok resp.body
  match fetched with
  | .exit c b => .exit c b
  | .ok snapList =>
    if snapList.length = 0 then .exit 1 true
    else
      let l1 := snapList.drop 1
      let l2 := applyTimeFilter fromD toD l1
      let l3 := List.insertionSort snapLe l2
      let l4 := if latestOnly then get_latest_snapshots l3 else l3
      .ok l4

/-! ## The per-record download pipeline (`download_file`, `write_file`) -/

/-- A content-fetch response: HTTP status code and body bytes. -/
structure Response where
  status_code : Nat
  content : List Nat
deriving DecidableEq

/-- Observable side effects of processing one record. -/
inductive Effect where
  | sleep : Nat → Effect
  | fetch : Str → Effect
  | mkdirs : Str → Effect
  | fileWrite : Str → Effect
  | cleanupDir : Str → Effect
deriving DecidableEq

/-- The one status line `download_file` logs for a record. -/
inductive Status where
  | skipByTimestamp
  | skipOnDisk
  | skipHashedOnDisk : Str → Status
  | dryRunLine
  | retryExhausted
  | httpError : Nat → Status
  | skipEmpty
  | savedOk
  | savedFallback : Str → Status
  | saveCollision
  | saveFailedBoth
deriving DecidableEq

/-- Statuses whose log line reports the record as skipped. -/
def isSkipStatus : Status → Bool
  | .skipByTimestamp => true
  | .skipOnDisk => true
  | .skipHashedOnDisk _ => true
  | _ => false

/-- How `download_file` ends for one record: a logged status with the effects
performed, or process abort (`sys.exit`) out of the retry wrapper. -/
inductive DlOutcome where
  | done : Status → List Effect → DlOutcome
  | abort : Nat → List Effect → DlOutcome
deriving DecidableEq

/-- Run configuration (the module-level variables of the script). -/
structure Config where
  dstDir : Str
  skipTimestamps : List Str
  dryRun : Bool
  retries : Nat
  delay : Nat
  noFail : Bool
  platform : Platform
  sha1hex : Str → Str

/-- Filesystem oracle: which paths are existing regular files, and whether
the primary and the fallback write raise `OSError`. -/
structure Env where
  isfile : Str → Bool
  primaryWriteOk : Bool
  fallbackWriteOk : Bool

/-- The Wayback content URL `http://web.archive.org/web/<ts>id_/<url>`. -/
def snapshot_url (ts url : Str) : Str :=
  "http://web.archive.org/web/".data ++ ts ++ "id_/".data ++ url

/-- The effects of a retry-wrapped fetch: each attempt optionally sleeps,
then issues the HTTP GET. -/
def retryEffects (url : Str) (recs : List AttemptRec) : List Effect :=
  (recs.map (fun r =>
    (if r.sleepBefore ≠ 0 then [Effect.sleep r.sleepBefore] else []) ++
      [Effect.fetch url])).flatten

/-- Model of `os.path.join(DST_DIR, timestamp)`. -/
def timestamp_dir (cfg : Config) (ts : Str) : Str :=
  pathJoin cfg.platform cfg.dstDir ts

/-- The primary target path `os.path.join(DST_DIR, timestamp, get_file_path(url))`. -/
def primary_fpath (cfg : Config) (snap : Snap) : Str :=
  pathJoin cfg.platform (timestamp_dir cfg snap.1) (get_file_path cfg.platform snap.2)

/-- The fallback target path `<dst>/<timestamp>/<sha1(url)><ext>`. -/
def fallback_fpath (cfg : Config) (snap : Snap) : Str :=
  (get_hashed_file_path cfg.platform cfg.sha1hex snap.2 (timestamp_dir cfg snap.1)).1

/-- Model of `os.path.split`: break a path at the last separator, stripping trailing
separators from the head unless it is all separators. -/
def pathSplit (pl : Platform) (p : Str) : Str × Str :=
  let rev := p.reverse
  let tail := (rev.takeWhile (fun c => !(isSepChar pl c))).reverse
  let head0 := (rev.dropWhile (fun c => !(isSepChar pl c))).reverse
  let head :=
    if head0.isEmpty || head0.all (isSepChar pl) then head0
    else (head0.reverse.dropWhile (isSepChar pl)).reverse
  (head, tail)

/-- Model of `write_file`: reject if the parent "directory" is an existing regular
file; otherwise create directories and write; on `OSError` clean up the
freshly created subtree and retry at the SHA-1 fallback path. -/
def write_file (cfg : Config) (env : Env) (fpath : Str) (tsDir original_url : Str)
    (fx : List Effect) : DlOutcome :=
  let dirname := (pathSplit cfg.platform fpath).1
  if env.isfile dirname then .done .saveCollision fx
  else if env.primaryWriteOk then
    .done .savedOk (fx ++ [.mkdirs dirname, .fileWrite fpath])
  else
    let hf := get_hashed_file_path cfg.platform cfg.sha1hex original_url tsDir
    if env.fallbackWriteOk then
      .done (.savedFallback hf.2) (fx ++ [.mkdirs dirname, .cleanupDir dirname, .fileWrite hf.1])
    else .done .saveFailedBoth (fx ++ [.mkdirs dirname, .cleanupDir dirname])

/-- Model of `download_file`: skip-list check, primary-path check, fallback-path
check, dry-run check, then the retry-wrapped fetch and the save. -/
def download_file (cfg : Config) (env : Env) (f : Nat → Except Unit Response)
    (snap : Snap) : DlOutcome :=
  if snap.1 ∈ cfg.skipTimestamps then .done .skipByTimestamp []
  else if env.isfile (primary_fpath cfg snap) then .done .skipOnDisk []
  else
    let hf := get_hashed_file_path cfg.platform cfg.sha1hex snap.2 (timestamp_dir cfg snap.1)
    if env.isfile hf.1 then .done (.skipHashedOnDisk hf.2) []
    else if cfg.dryRun then .done .dryRunLine []
    else
      let url := snapshot_url snap.1 snap.2
      let r := retryRun cfg.retries cfg.delay cfg.noFail true f
      let fx := retryEffects url r.1
      match r.2 with
      | .abort c => .abort c fx
      | .failSkip => .done .retryExhausted fx
      | .val resp =>
        if resp.status_code ≠ 200 then .done (.httpError resp.status_code) fx
        else if resp.content.length = 0 then .done .skipEmpty fx
        else write_file cfg env (primary_fpath cfg snap) (timestamp_dir cfg snap.1) snap.2 fx

/-- Result of the whole `download_files` loop: the per-record status lines
and effects, or the records completed before a `sys.exit`. -/
inductive RunResult where
  | completed : List (Status × List Effect) → RunResult
  | aborted : List (Status × List Effect) → Nat → RunResult
deriving DecidableEq

/-- The `download_files` loop from record index `i` on; `fss j` is the fetch
oracle of the `j`-th record. -/
def download_files_go (cfg : Config) (env : Env)
    (fss : Nat → Nat → Except Unit Response) : Nat → List Snap → RunResult
  | _, [] => .completed []
  | i, s :: rest =>
    match download_file cfg env (fss i) s with
    | .done st fx =>
      match download_files_go cfg env fss (i + 1) rest with
      | .completed recs => .completed ((st, fx) :: recs)
      | .aborted recs c => .aborted ((st, fx) :: recs) c
    | .abort c _ => .aborted [] c

/-- Model of `download_files`: process every record in order. -/
def download_files (cfg : Config) (env : Env)
    (fss : Nat → Nat → Except Unit Response) (snaps : List Snap) : RunResult :=
  download_files_go cfg env fss 0 snaps

/-- The process exit code of `main`: the code of any `sys.exit`, else 0. -/
def main_run (cfg : Config) (env : Env) (fromD toD : Option Str) (latestOnly : Bool)
    (cache : Option (List Snap)) (idxF : Nat → Except Unit IndexResp)
    (fss : Nat → Nat → Except Unit Response) : Nat :=
  match get_snapshot_list cfg.retries cfg.delay cfg.noFail fromD toD latestOnly cache idxF with
  | .exit c _ => c
  | .ok snaps =>
    match download_files cfg env fss snaps with
    | .completed _ => 0
    | .aborted _ c => c

/-! ## Cleanup of empty directories (`cleanup_empty_directory`) -/

/-- The contents of the timestamp directory as flat lists of relative paths
(segment lists): regular files and directories. -/
structure FsState where
  files : List (List Str)
  dirs : List (List Str)
deriving DecidableEq

/-- The `os.walk`-based emptiness test of `cleanup_empty_directory`: walking
a regular file yields nothing (vacuously empty); walking a directory finds
every file anywhere below the top-level subdirectory `first`. -/
def walkIsEmpty (first : Str) (fs : FsState) : Bool :=
  if [first] ∈ fs.files then true
  else !(fs.files.any (fun f => f.head? = some first))

/-- Model of `cleanup_empty_directory`: take the first segment of the path of the
failed file relative to the timestamp directory (`relSegs` empty models a
relative path of `""` or `"."`); if that top-level entry exists and its
subtree holds no files, remove the subtree with `shutil.rmtree` — which
raises (and is swallowed) when the entry is itself a regular file. -/
def cleanup_empty_directory (relSegs : List Str) (fs : FsState) : FsState :=
  match relSegs with
  | [] => fs
  | first :: _ =>
    if [first] ∈ fs.dirs ∨ [first] ∈ fs.files then
      if walkIsEmpty first fs then
        if [first] ∈ fs.files then fs
        else
          ⟨fs.files.filter (fun f => f.head? ≠ some first),
            fs.dirs.filter (fun d => d.head? ≠ some first)⟩
      else fs
    else fs

/-! ## Basic lemmas about string comparison -/

theorem strLe_refl (s : Str) : strLe s s = true := by
  induction s with
  | nil => rfl
  | cons a as ih => simp [strLe, ih]

theorem strLe_total (a b : Str) : strLe a b = true ∨ strLe b a = true := by
  induction a generalizing b with
  | nil => left; rfl
  | cons x xs ih =>
    cases b with
    | nil => right; rfl
    | cons y ys =>
      rcases Nat.lt_trichotomy x.toNat y.toNat with h | h | h
      · left; simp [strLe, h]
      · rcases ih ys with h2 | h2
        · left; simp [strLe, h, h2]
        · right; simp [strLe, h.symm, h2]
      · right; simp [strLe, h]

theorem strLe_trans (a b c : Str) (hab : strLe a b = true) (hbc : strLe b c = true) :
    strLe a c = true := by
  induction a generalizing b c with
  | nil => rfl
  | cons x xs ih =>
    cases b with
    | nil => simp [strLe] at hab
    | cons y ys =>
      cases c with
      | nil => simp [strLe] at hbc
      | cons z zs =>
        simp only [strLe] at hab hbc ⊢
        simp at hab hbc ⊢
        rcases hab with h1 | ⟨h1, h1s⟩ <;> rcases hbc with h2 | ⟨h2, h2s⟩
        · exact Or.inl (by omega)
        · exact Or.inl (by omega)
        · exact Or.inl (by omega)
        · exact Or.inr ⟨by omega, ih ys zs h1s h2s⟩

instance : IsTotal Snap snapLe := ⟨fun a b => strLe_total a.1 b.1⟩

instance : IsTrans Snap snapLe := ⟨fun a b c hab hbc => strLe_trans _ _ _ hab hbc⟩

/-! ## The retry wrapper: claim C3 -/

theorem sleep_formula (delay rc : Nat) :
    (if delay ≠ 0 && rc > 0 then delay * 2 * rc else 0) = delay * 2 * rc := by
  match delay, rc with
  | 0, rc => simp
  | d + 1, 0 => simp
  | d + 1, r + 1 => simp

theorem retryRunAux_spec {α : Type} (delay : Nat) (noFail hasCtx : Bool)
    (f : Nat → Except Unit α) :
    ∀ (fuel rc : Nat),
      (retryRunAux delay noFail hasCtx f rc fuel).1.length ≤ fuel + 1 ∧
      (retryRunAux delay noFail hasCtx f rc fuel).1.map AttemptRec.idx =
        List.range' rc (retryRunAux delay noFail hasCtx f rc fuel).1.length ∧
      ∀ r ∈ (retryRunAux delay noFail hasCtx f rc fuel).1,
        r.sleepBefore = delay * 2 * r.idx := by
  intro fuel
  induction fuel with
  | zero =>
    intro rc
    simp only [retryRunAux]
    cases hf : f rc with
    | ok a =>
      refine ⟨by simp, by simp [List.range'], ?_⟩
      intro r hr
      simp at hr
      subst hr
      simpa using sleep_formula delay rc
    | error e =>
      refine ⟨by simp, by simp [List.range'], ?_⟩
      intro r hr
      simp at hr
      subst hr
      simpa using sleep_formula delay rc
  | succ fuel ih =>
    intro rc
    simp only [retryRunAux]
    cases hf : f rc with
    | ok a =>
      refine ⟨by simp, by simp [List.range'], ?_⟩
      intro r hr
      simp at hr
      subst hr
      simpa using sleep_formula delay rc
    | error e =>
      obtain ⟨ih1, ih2, ih3⟩ := ih (rc + 1)
      refine ⟨by simpa using by omega, ?_, ?_⟩
      · simp only [List.map_cons, ih2, List.length_cons]
        rw [List.range'_succ]
      · intro r hr
        simp at hr
        rcases hr with hr | hr
        · subst hr
          simpa using sleep_formula delay rc
        · exact ih3 r hr

/-- Claim C3: a retry-wrapped invocation attempts the operation at most
`max_retries + 1` times; the attempts of one invocation are numbered
`0, 1, ...` from a fresh budget (independent of any other invocation, since
`retryRun` is a pure function of its own arguments); and the wait before
attempt `n` is `base_delay * 2 * n` seconds — zero before the first. -/
theorem claim_C3_retry_backoff {α : Type} (retries delay : Nat) (noFail hasCtx : Bool)
    (f : Nat → Except Unit α) :
    (retryRun retries delay noFail hasCtx f).1.length ≤ retries + 1 ∧
    (retryRun retries delay noFail hasCtx f).1.map AttemptRec.idx =
      List.range ((retryRun retries delay noFail hasCtx f).1.length) ∧
    ∀ r ∈ (retryRun retries delay noFail hasCtx f).1,
      r.sleepBefore = delay * 2 * r.idx := by
  obtain ⟨h1, h2, h3⟩ := retryRunAux_spec delay noFail hasCtx f retries 0
  exact ⟨h1, by rw [List.range_eq_range']; exact h2, h3⟩

/-! ## Claim C6: the time-range filter -/

/-- Claim C6: with supplied (truthy) `from`/`to` bounds of at most 14 digits,
a record survives the time-range filter exactly when its timestamp lies
between the right-zero-padded bounds in lexicographic order: every survivor
satisfies both padded bounds, and every input record satisfying both
survives. -/
theorem claim_C6_time_filter (fromD toD : Str) (l : List Snap) (s : Snap)
    (hf0 : fromD ≠ []) (ht0 : toD ≠ [])
    (hfd : fromD.all Char.isDigit = true) (htd : toD.all Char.isDigit = true)
    (hfl : fromD.length ≤ 14) (htl : toD.length ≤ 14) :
    s ∈ applyTimeFilter (some fromD) (some toD) l ↔
      s ∈ l ∧ strLe (ljust fromD 14 '0') s.1 = true ∧
        strLe s.1 (ljust toD 14 '0') = true := by
  have hf : truthy (some fromD) = true := by
    cases fromD with
    | nil => exact absurd rfl hf0
    | cons c cs => rfl
  have ht : truthy (some toD) = true := by
    cases toD with
    | nil => exact absurd rfl ht0
    | cons c cs => rfl
  unfold applyTimeFilter
  rw [hf]
  simp only [Bool.true_or, if_true, List.mem_filter, timeFilterPred, hf, ht,
    Option.getD_some, Bool.not_true, Bool.false_or, Bool.and_eq_true]

theorem claim_C6_witness :
    ("20200615000000".data, "u".data) ∈
        applyTimeFilter (some "2020".data) (some "2021".data)
          [(("20200615000000".data : Str), ("u".data : Str))] ↔
      ("20200615000000".data, "u".data) ∈
          [(("20200615000000".data : Str), ("u".data : Str))] ∧
        strLe (ljust "2020".data 14 '0') "20200615000000".data = true ∧
        strLe "20200615000000".data (ljust "2021".data 14 '0') = true :=
  claim_C6_time_filter "2020".data "2021".data _ _
    (by decide) (by decide) (by decide) (by decide) (by decide) (by decide)

/-! ## Claim C2: existing files are skipped without fetching or writing -/

/-- Claim C2: when a regular file already exists at the primary derived path
or at the SHA-1 fallback path, processing the record performs no network
request and no filesystem effect at all (empty effect list) and logs a skip
status. -/
theorem claim_C2_skip_existing (cfg : Config) (env : Env)
    (f : Nat → Except Unit Response) (snap : Snap)
    (h : env.isfile (primary_fpath cfg snap) = true ∨
      env.isfile (fallback_fpath cfg snap) = true) :
    ∃ st, download_file cfg env f snap = .done st [] ∧ isSkipStatus st = true := by
  unfold download_file
  by_cases h1 : snap.1 ∈ cfg.skipTimestamps
  · exact ⟨.skipByTimestamp, by simp [h1], rfl⟩
  · cases hp : env.isfile (primary_fpath cfg snap) with
    | true => exact ⟨.skipOnDisk, by simp [h1, hp], rfl⟩
    | false =>
      have h3 : env.isfile (fallback_fpath cfg snap) = true := by
        rcases h with h | h
        · rw [hp] at h; exact absurd h (by simp)
        · exact h
      rw [fallback_fpath] at h3
      exact ⟨.skipHashedOnDisk (get_hashed_file_path cfg.platform cfg.sha1hex snap.2
        (timestamp_dir cfg snap.1)).2, by simp [h1, hp, h3], rfl⟩

theorem claim_C2_witness :
    ∃ st,
      download_file
          ⟨"d".data, [], false, 0, 0, false, Platform.posix, fun _ => "h".data⟩
          ⟨fun _ => true, true, true⟩ (fun _ => Except.error ())
          ("2".data, "u".data) = .done st [] ∧
        isSkipStatus st = true :=
  claim_C2_skip_existing _ _ _ _ (Or.inl rfl)

/-! ## Claim C10: dry-run ordering and frame -/

/-- Claim C10: with dry-run active and the record not in the skip-list,
`download_file` performs no effect whatsoever; it reports the on-disk skip
reason when the primary or fallback file already exists (those checks run
first), and the dry-run line otherwise. -/
theorem claim_C10_dry_run (cfg : Config) (env : Env) (f : Nat → Except Unit Response)
    (snap : Snap) (hdry : cfg.dryRun = true) (hskip : snap.1 ∉ cfg.skipTimestamps) :
    download_file cfg env f snap = .done
      (if env.isfile (primary_fpath cfg snap) then .skipOnDisk
       else if env.isfile (fallback_fpath cfg snap) then
         .skipHashedOnDisk (get_hashed_file_path cfg.platform cfg.sha1hex snap.2
           (timestamp_dir cfg snap.1)).2
       else .dryRunLine) [] := by
  unfold download_file
  cases hp : env.isfile (primary_fpath cfg snap) with
  | true => simp [hskip, hp]
  | false =>
    have hh := fallback_fpath cfg snap
    cases hh : env.isfile (fallback_fpath cfg snap) with
    | true =>
      rw [fallback_fpath] at hh
      simp [hskip, hp, hh, fallback_fpath]
    | false =>
      rw [fallback_fpath] at hh
      simp [hskip, hp, hh, hdry, fallback_fpath]

theorem claim_C10_witness :
    download_file
        ⟨"d".data, [], true, 0, 0, false, Platform.posix, fun _ => "h".data⟩
        ⟨fun _ => false, true, true⟩ (fun _ => Except.error ())
        ("2".data, "u".data) = .done .dryRunLine [] := by
  have h := claim_C10_dry_run
    ⟨"d".data, [], true, 0, 0, false, Platform.posix, fun _ => "h".data⟩
    ⟨fun _ => false, true, true⟩ (fun _ => Except.error ())
    ("2".data, "u".data) rfl (by simp)
  simpa using h

/-! ## Claim C8: index-fetch failures are always fatal -/

theorem retryRunAux_allFail {α : Type} (delay : Nat) (noFail : Bool)
    (f : Nat → Except Unit α) (h : ∀ i, f i = .error ()) :
    ∀ (fuel rc : Nat), (retryRunAux delay noFail false f rc fuel).2 = ROutcome.abort 1 := by
  intro fuel
  induction fuel with
  | zero => intro rc; simp [retryRunAux, h rc]
  | succ n ih => intro rc; simp [retryRunAux, h rc, ih]

theorem retryRun_firstOk {α : Type} (retries delay : Nat) (noFail hasCtx : Bool)
    (f : Nat → Except Unit α) (a : α) (h : f 0 = .ok a) :
    retryRun retries delay noFail hasCtx f = ([⟨0, 0⟩], .val a) := by
  unfold retryRun
  cases retries with
  | zero => simp [retryRunAux, h]
  | succ n => simp [retryRunAux, h]

/-- Claim C8: for the index fetch (which carries no URL context), exhausting
the retry budget aborts the process with exit code 1 whatever the no-fail
flag says, and a completed response with a non-2xx status also aborts with
exit code 1. -/
theorem claim_C8_index_fetch_fatal (retries delay : Nat) (noFail : Bool)
    (fromD toD : Option Str) (latestOnly : Bool)
    (idxF : Nat → Except Unit IndexResp) (resp : IndexResp) :
    ((∀ i, idxF i = .error ()) →
      get_snapshot_list retries delay noFail fromD toD latestOnly none idxF =
        .exit 1 false) ∧
    (idxF 0 = .ok resp → resp.status_code < 200 ∨ 300 ≤ resp.status_code →
      get_snapshot_list retries delay noFail fromD toD latestOnly none idxF =
        .exit 1 false) := by
  constructor
  · intro h
    have ha := retryRunAux_allFail delay noFail idxF h retries 0
    unfold get_snapshot_list retryRun
    rw [ha]
  · intro h0 hcode
    have hv := retryRun_firstOk retries delay noFail false idxF resp h0
    have hne : resp.status_code ≠ 200 := by omega
    unfold get_snapshot_list
    rw [hv]
    simp [hne]

theorem claim_C8_witness :
    get_snapshot_list 0 0 true none none false none (fun _ => Except.error ()) =
      .exit 1 false :=
  (claim_C8_index_fetch_fatal 0 0 true none none false (fun _ => Except.error ())
    ⟨200, []⟩).1 (fun _ => rfl)

/-! ## Claim C1: the empty-index terminal case -/

/-- Claim C1 is false on the code: with an empty raw index (so the list
after header discard is also empty), the run emits the "no snapshots found"
notice but exits with status 1, not 0 — the check also runs before the
header row is discarded. -/
theorem claim_C1_counterexample :
    List.drop 1 ([] : List Snap) = [] ∧
    get_snapshot_list 0 0 false none none false (some []) (fun _ => Except.error ()) =
      .exit 1 true ∧
    IndexResult.exit 1 true ≠ IndexResult.exit 0 true :=
  ⟨rfl, rfl, by decide⟩

/-- Claim C1, amended: the emptiness check runs on the raw list, before the
header row is discarded, and its exit status is 1.  When the raw list is
empty, the run terminates with the "no snapshots found" notice and exit
code 1; when the raw list holds only the header row, the run does not take
that path at all — it proceeds with an empty record list and completes
normally (exit code 0, no notice). -/
theorem claim_C1_amended_empty_index (retries delay : Nat) (noFail : Bool)
    (fromD toD : Option Str) (latestOnly : Bool)
    (idxF : Nat → Except Unit IndexResp) (raw : List Snap) :
    (raw = [] →
      get_snapshot_list retries delay noFail fromD toD latestOnly (some raw) idxF =
        .exit 1 true) ∧
    (raw.length = 1 →
      get_snapshot_list retries delay noFail fromD toD latestOnly (some raw) idxF =
        .ok []) := by
  constructor
  · rintro rfl; rfl
  · intro h
    match raw, h with
    | [x], _ =>
      unfold get_snapshot_list
      simp [applyTimeFilter, get_latest_snapshots, dictOf, List.insertionSort]

theorem claim_C1_witness :
    get_snapshot_list 0 0 false none none false
        (some [("timestamp".data, "original".data)]) (fun _ => Except.error ()) =
      .ok [] :=
  (claim_C1_amended_empty_index 0 0 false none none false (fun _ => Except.error ())
    [("timestamp".data, "original".data)]).2 rfl

/-! ## Claim C7: cleanup never deletes saved content -/

/-- Claim C7: `cleanup_empty_directory` never deletes a regular file; any
top-level subtree containing at least one file is left entirely unchanged
(its files and directories all survive); and a directory is removed only
when no file anywhere shares its top-level segment. -/
theorem claim_C7_cleanup_only_empty (relSegs : List Str) (fs : FsState) :
    (∀ f ∈ fs.files, f ∈ (cleanup_empty_directory relSegs fs).files) ∧
    (∀ s : Str, fs.files.any (fun f => f.head? = some s) = true →
      (∀ d ∈ fs.dirs, d.head? = some s → d ∈ (cleanup_empty_directory relSegs fs).dirs) ∧
      (∀ f ∈ fs.files, f.head? = some s → f ∈ (cleanup_empty_directory relSegs fs).files)) ∧
    (∀ d ∈ fs.dirs, d ∉ (cleanup_empty_directory relSegs fs).dirs →
      ∀ f ∈ fs.files, f.head? ≠ d.head?) := by
  cases relSegs with
  | nil =>
    refine ⟨fun f hf => hf, fun s _ => ⟨fun d hd _ => hd, fun f hf _ => hf⟩, ?_⟩
    intro d hd hnd
    exact absurd hd hnd
  | cons first rest =>
    by_cases hex : [first] ∈ fs.dirs ∨ [first] ∈ fs.files
    · cases hw : walkIsEmpty first fs with
      | false =>
        have hsame : cleanup_empty_directory (first :: rest) fs = fs := by
          unfold cleanup_empty_directory
          simp [hex, hw]
        rw [hsame]
        refine ⟨fun f hf => hf, fun s _ => ⟨fun d hd _ => hd, fun f hf _ => hf⟩, ?_⟩
        intro d hd hnd
        exact absurd hd hnd
      | true =>
        by_cases hff : [first] ∈ fs.files
        · have hsame : cleanup_empty_directory (first :: rest) fs = fs := by
            unfold cleanup_empty_directory
            simp [hex, hw, hff]
          rw [hsame]
          refine ⟨fun f hf => hf, fun s _ => ⟨fun d hd _ => hd, fun f hf _ => hf⟩, ?_⟩
          intro d hd hnd
          exact absurd hd hnd
        · have hdirs : [first] ∈ fs.dirs := by
            rcases hex with hx | hx
            · exact hx
            · exact absurd hx hff
          have hres : cleanup_empty_directory (first :: rest) fs =
              ⟨fs.files.filter (fun f => f.head? ≠ some first),
                fs.dirs.filter (fun d => d.head? ≠ some first)⟩ := by
            unfold cleanup_empty_directory
            simp [hdirs, hw, hff]
          have hnone : ∀ f ∈ fs.files, f.head? ≠ some first := by
            intro f hf
            have hw2 : (fs.files.any (fun f => f.head? = some first)) = false := by
              unfold walkIsEmpty at hw
              simp [hff] at hw
              simpa using hw
            have := List.any_eq_false.mp hw2 f hf
            simpa using this
          rw [hres]
          refine ⟨?_, ?_, ?_⟩
          · intro f hf
            exact List.mem_filter.mpr ⟨hf, by simpa using hnone f hf⟩
          · intro s hs
            refine ⟨?_, ?_⟩
            · intro d hd hds
              have hneq : some s ≠ some first := by
                rcases List.any_eq_true.mp hs with ⟨f, hf, hfs⟩
                simp at hfs
                intro hc
                have := hnone f hf
                rw [hfs] at this
                exact this (by simpa using hc)
              exact List.mem_filter.mpr ⟨hd, by simp [hds]; exact fun hc => hneq (by rw [hc])⟩
            · intro f hf _
              exact List.mem_filter.mpr ⟨hf, by simpa using hnone f hf⟩
          · intro d hd hnd f hf
            have hdh : d.head? = some first := by
              by_contra hc
              exact hnd (List.mem_filter.mpr ⟨hd, by simpa using hc⟩)
            rw [hdh]
            exact hnone f hf
    · have hsame : cleanup_empty_directory (first :: rest) fs = fs := by
        unfold cleanup_empty_directory
        simp [hex]
      rw [hsame]
      refine ⟨fun f hf => hf, fun s _ => ⟨fun d hd _ => hd, fun f hf _ => hf⟩, ?_⟩
      intro d hd hnd
      exact absurd hd hnd

theorem claim_C7_witness :
    ("a".data :: "b".data :: []) ∈
      (cleanup_empty_directory ["a".data]
        ⟨[["a".data, "b".data]], [["a".data]]⟩).files :=
  (claim_C7_cleanup_only_empty ["a".data]
    ⟨[["a".data, "b".data]], [["a".data]]⟩).1 _ (by simp)

/-! ## Claim C4: path derivation and the `index.html` rule -/

theorem url_to_path_nil (pl : Platform) : url_to_path pl [] = [] := by
  cases pl <;> rfl

theorem url_to_path_last_slash (pl : Platform) (s : Str) (h : s.getLast? = some '/') :
    (url_to_path pl s).getLast? = some '/' := by
  obtain ⟨t, rfl⟩ := List.getLast?_eq_some_iff.mp h
  cases pl with
  | posix =>
    show (((t ++ ['/']).map (escapeChar isRestrictedPosix)).flatten).getLast? = some '/'
    rw [List.map_append, List.flatten_append]
    have he : ((['/'].map (escapeChar isRestrictedPosix)).flatten : Str) = ['/'] := by decide
    rw [he]
    exact List.getLast?_concat _
  | windows =>
    show ((((t ++ ['/']).map (escapeChar isRestrictedWin)).flatten).map
        (fun c => if c = '?' then '@' else c)).getLast? = some '/'
    rw [List.map_append, List.flatten_append, List.map_append]
    have he : (((['/'].map (escapeChar isRestrictedWin)).flatten).map
        (fun c => if c = '?' then '@' else c) : Str) = ['/'] := by decide
    rw [he]
    exact List.getLast?_concat _

theorem lastSegment_append_sep (pl : Platform) (a b : Str)
    (ha : a.getLast? = some (sep pl)) (hb : ∀ c ∈ b, c ≠ sep pl) :
    lastSegment pl (a ++ b) = b := by
  obtain ⟨t, rfl⟩ := List.getLast?_eq_some_iff.mp ha
  unfold lastSegment
  have h1 : (t ++ [sep pl] ++ b).reverse = b.reverse ++ sep pl :: t.reverse := by simp
  rw [h1,
    List.takeWhile_append_of_pos
      (fun x hx => decide_eq_true (hb x (List.mem_reverse.mp hx))),
    List.takeWhile_cons_of_neg (by simp)]
  simp

theorem dropWhile_getLast? (p : Char → Bool) (s : Str) (h : s.dropWhile p ≠ []) :
    (s.dropWhile p).getLast? = s.getLast? := by
  conv_rhs => rw [← List.takeWhile_append_dropWhile p s]
  rw [List.getLast?_append_of_ne_nil _ h]

/-- Claim C4 as stated is false on the code: the URL `http://x.test?a` has an
empty path component, yet `get_file_path` derives `?a`, whose final segment
is not `index.html` (the query suffix prevents the directory-like test from
firing). -/
theorem claim_C4_counterexample :
    (urlsplit "http://x.test?a".data).upath = [] ∧
    get_file_path .posix "http://x.test?a".data = "?a".data ∧
    lastSegment .posix (get_file_path .posix "http://x.test?a".data) ≠
      "index.html".data := by
  refine ⟨by decide, by decide, by decide⟩

/-- Claim C4, amended: `get_file_path` is a pure function (trivially
deterministic in the embedding), and every URL whose *path component* is
empty or ends in a slash *and whose query component is empty* derives a path
whose final segment is `index.html`.  (A URL with a query — e.g. one with no
path but ending in `?a` — escapes the directory-like test, which is what the
counterexample exhibits.) -/
theorem claim_C4_amended_index_html (pl : Platform) (u : Str)
    (hq : (urlsplit u).query = [])
    (hp : (urlsplit u).upath = [] ∨ (urlsplit u).upath.getLast? = some '/') :
    get_file_path pl u = get_file_path pl u ∧
    lastSegment pl (get_file_path pl u) = "index.html".data := by
  refine ⟨rfl, ?_⟩
  have hq2 : (urlsplit u).query.isEmpty = true := by rw [hq]; rfl
  by_cases hf1 : (urlsplit u).upath.dropWhile (fun c => c = '/') = []
  · have hgoal : get_file_path pl u = pathJoin pl [] ("index.html".data) := by
      simp only [get_file_path, hq2, if_true, hf1, url_to_path_nil, List.map_nil]
      simp
    rw [hgoal]
    cases pl <;> decide
  · have hlast : (urlsplit u).upath.getLast? = some '/' := by
      rcases hp with hp | hp
      · rw [hp] at hf1
        exact absurd rfl hf1
      · exact hp
    have hf1last : ((urlsplit u).upath.dropWhile (fun c => c = '/')).getLast? =
        some '/' := by
      rw [dropWhile_getLast? _ _ hf1]
      exact hlast
    have hf3last := url_to_path_last_slash pl _ hf1last
    have hf4last :
        (((url_to_path pl ((urlsplit u).upath.dropWhile (fun c => c = '/'))).map
          (fun c => if c = '/' then sep pl else c)).getLast?) = some (sep pl) := by
      rw [List.getLast?_map, hf3last]
      simp
    have hgoal : get_file_path pl u =
        ((url_to_path pl ((urlsplit u).upath.dropWhile (fun c => c = '/'))).map
          (fun c => if c = '/' then sep pl else c)) ++ "index.html".data := by
      simp only [get_file_path, hq2, if_true, hf4last, decide_True, Bool.true_or]
      unfold pathJoin
      have hhead : ("index.html".data).head? ≠ some (sep pl) := by
        cases pl <;> decide
      rw [if_neg hhead]
      have hne : (((url_to_path pl ((urlsplit u).upath.dropWhile (fun c => c = '/'))).map
          (fun c => if c = '/' then sep pl else c)).isEmpty) = false := by
        cases hx : ((url_to_path pl ((urlsplit u).upath.dropWhile (fun c => c = '/'))).map
            (fun c => if c = '/' then sep pl else c)) with
        | nil => rw [hx] at hf4last; simp at hf4last
        | cons y ys => rfl
      rw [hne]
      simp only [Bool.false_eq_true, if_false]
      have hends : endsWithSepChar pl
          (((url_to_path pl ((urlsplit u).upath.dropWhile (fun c => c = '/'))).map
            (fun c => if c = '/' then sep pl else c))) = true := by
        unfold endsWithSepChar
        rw [hf4last]
        simp
      rw [hends]
      simp
    rw [hgoal]
    exact lastSegment_append_sep pl _ _ hf4last (by cases pl <;> decide)

theorem claim_C4_witness :
    get_file_path .posix "http://x.test/a/".data = get_file_path .posix "http://x.test/a/".data ∧
    lastSegment .posix (get_file_path .posix "http://x.test/a/".data) =
      "index.html".data :=
  claim_C4_amended_index_html .posix "http://x.test/a/".data (by decide)
    (Or.inr (by decide))

/-! ## Claim C5: the latest-only reduction -/

theorem alookup_map_overwrite (k : Str) (v : Snap) :
    ∀ m : List (Str × Snap), (∃ p ∈ m, p.1 = k) →
      alookup k (m.map (fun p => if p.1 = k then (k, v) else p)) = some v := by
  intro m
  induction m with
  | nil => rintro ⟨p, hp, _⟩; cases hp
  | cons q m ih =>
    rintro ⟨p, hp, hpk⟩
    by_cases hq : q.1 = k
    · simp [alookup, hq]
    · have hpm : ∃ p ∈ m, p.1 = k := by
        rcases List.mem_cons.mp hp with rfl | hp
        · exact absurd hpk hq
        · exact ⟨p, hp, hpk⟩
      simp [alookup, hq, ih hpm]

theorem alookup_map_ne (k k' : Str) (v : Snap) (hne : k' ≠ k) :
    ∀ m : List (Str × Snap),
      alookup k (m.map (fun p => if p.1 = k' then (k', v) else p)) = alookup k m := by
  intro m
  induction m with
  | nil => rfl
  | cons q m ih =>
    by_cases hq : q.1 = k'
    · have hqk : ¬ q.1 = k := by rw [hq]; exact hne
      simp [alookup, hq, hne, hqk, ih]
    · by_cases hqk : q.1 = k
      · have hkk : k ≠ k' := Ne.symm hne
        simp [alookup, hq, hqk, hkk]
      · simp [alookup, hq, hqk, ih]

theorem alookup_append_notin (k : Str) (v : Snap) :
    ∀ m : List (Str × Snap), (¬ ∃ p ∈ m, p.1 = k) →
      alookup k (m ++ [(k, v)]) = some v := by
  intro m
  induction m with
  | nil => intro _; simp [alookup]
  | cons q m ih =>
    intro h
    have hq : ¬ q.1 = k := fun hc => h ⟨q, List.mem_cons_self q m, hc⟩
    have hm : ¬ ∃ p ∈ m, p.1 = k := by
      rintro ⟨p, hp, hpk⟩
      exact h ⟨p, List.mem_cons_of_mem q hp, hpk⟩
    simp [alookup, hq, ih hm]

theorem alookup_append_single_ne (k k' : Str) (v : Snap) (hne : k' ≠ k) :
    ∀ m : List (Str × Snap), alookup k (m ++ [(k', v)]) = alookup k m := by
  intro m
  induction m with
  | nil => simp [alookup, hne]
  | cons q m ih =>
    by_cases hq : q.1 = k
    · simp [alookup, hq]
    · simp [alookup, hq, ih]

theorem alookup_dictInsert_self (m : List (Str × Snap)) (k : Str) (v : Snap) :
    alookup k (dictInsert m k v) = some v := by
  unfold dictInsert
  by_cases hex : ∃ p ∈ m, p.1 = k
  · rw [if_pos hex]
    exact alookup_map_overwrite k v m hex
  · rw [if_neg hex]
    exact alookup_append_notin k v m hex

theorem alookup_dictInsert_ne (m : List (Str × Snap)) (k k' : Str) (v : Snap)
    (hne : k' ≠ k) : alookup k (dictInsert m k' v) = alookup k m := by
  unfold dictInsert
  by_cases hex : ∃ p ∈ m, p.1 = k'
  · rw [if_pos hex]
    exact alookup_map_ne k k' v hne m
  · rw [if_neg hex]
    exact alookup_append_single_ne k k' v hne m

theorem lastWith_cons (k : Str) (s : Snap) (rest : List Snap) :
    lastWith k (s :: rest) =
      (lastWith k rest).or (if s.2 = k then some s else none) := by
  unfold lastWith
  rw [List.reverse_cons, List.find?_append]
  congr 1
  by_cases hs : s.2 = k
  · simp [List.find?_cons, hs]
  · simp [List.find?_cons, hs]

theorem lastWith_mem (k : Str) (l : List Snap) (v : Snap) (h : lastWith k l = some v) :
    v ∈ l ∧ v.2 = k := by
  unfold lastWith at h
  refine ⟨List.mem_reverse.mp (List.mem_of_find?_eq_some h), ?_⟩
  simpa using List.find?_some h

theorem lastWith_none (k : Str) (l : List Snap) (h : lastWith k l = none) :
    ∀ t ∈ l, t.2 ≠ k := by
  unfold lastWith at h
  intro t ht
  simpa using List.find?_eq_none.mp h t (List.mem_reverse.mpr ht)

theorem lastWith_max (k : Str) :
    ∀ (l : List Snap), l.Pairwise snapLe →
      ∀ v, lastWith k l = some v → ∀ t ∈ l, t.2 = k → snapLe t v := by
  intro l
  induction l with
  | nil => intro _ v hv; cases hv
  | cons s rest ih =>
    intro hp v hv t ht htk
    rw [lastWith_cons] at hv
    cases hlw : lastWith k rest with
    | some w =>
      rw [hlw] at hv
      have hv2 : some w = some v := hv
      injection hv2 with hv2
      rw [← hv2]
      have hw := lastWith_mem k rest w hlw
      rcases List.mem_cons.mp ht with rfl | ht
      · exact (List.pairwise_cons.mp hp).1 w hw.1
      · exact ih hp.of_cons w hlw t ht htk
    | none =>
      rw [hlw] at hv
      by_cases hs : s.2 = k
      · rw [if_pos hs] at hv
        simp only [Option.none_or] at hv
        injection hv with hv
        subst hv
        rcases List.mem_cons.mp ht with rfl | ht
        · exact strLe_refl _
        · exact absurd htk (lastWith_none k rest hlw t ht)
      · rw [if_neg hs] at hv
        simp at hv

theorem alookup_foldl (k : Str) :
    ∀ (l : List Snap) (m : List (Str × Snap)),
      alookup k (l.foldl (fun m s => dictInsert m s.2 s) m) =
        (lastWith k l).or (alookup k m) := by
  intro l
  induction l with
  | nil => intro m; simp [lastWith]
  | cons s rest ih =>
    intro m
    rw [List.foldl_cons, ih, lastWith_cons]
    cases hlw : lastWith k rest with
    | some v => rfl
    | none =>
      simp only [Option.none_or]
      by_cases hs : s.2 = k
      · rw [if_pos hs]
        rw [show dictInsert m s.2 s = dictInsert m k s from by rw [hs]]
        rw [alookup_dictInsert_self]
        rfl
      · rw [if_neg hs]
        simp only [Option.none_or]
        exact alookup_dictInsert_ne m k s.2 s hs

theorem keysND_dictInsert (m : List (Str × Snap)) (k : Str) (v : Snap)
    (h : m.Pairwise (fun p q => p.1 ≠ q.1)) :
    (dictInsert m k v).Pairwise (fun p q => p.1 ≠ q.1) := by
  unfold dictInsert
  by_cases hex : ∃ p ∈ m, p.1 = k
  · rw [if_pos hex]
    rw [List.pairwise_map]
    refine h.imp ?_
    intro a b hab
    by_cases ha : a.1 = k <;> by_cases hb : b.1 = k
    · exact absurd (ha.trans hb.symm) hab
    · rw [if_pos ha, if_neg hb]
      exact fun hc => hb hc.symm
    · rw [if_neg ha, if_pos hb]
      exact fun hc => ha hc
    · rw [if_neg ha, if_neg hb]
      exact hab
  · rw [if_neg hex]
    rw [List.pairwise_append]
    refine ⟨h, List.pairwise_singleton _ _, ?_⟩
    intro p hp q hq
    have hq2 : q = (k, v) := by simpa using hq
    subst hq2
    exact fun hc => hex ⟨p, hp, hc⟩

theorem keysND_foldl :
    ∀ (l : List Snap) (m : List (Str × Snap)),
      m.Pairwise (fun p q => p.1 ≠ q.1) →
      (l.foldl (fun m s => dictInsert m s.2 s) m).Pairwise (fun p q => p.1 ≠ q.1) := by
  intro l
  induction l with
  | nil => exact fun m hm => hm
  | cons s rest ih =>
    intro m hm
    rw [List.foldl_cons]
    exact ih _ (keysND_dictInsert m s.2 s hm)

theorem urlkey_dictInsert (m : List (Str × Snap)) (k : Str) (v : Snap)
    (hv : v.2 = k) (h : ∀ p ∈ m, p.2.2 = p.1) :
    ∀ p ∈ dictInsert m k v, p.2.2 = p.1 := by
  unfold dictInsert
  by_cases hex : ∃ p ∈ m, p.1 = k
  · rw [if_pos hex]
    intro p hp
    obtain ⟨q, hq, hqp⟩ := List.mem_map.mp hp
    by_cases hqk : q.1 = k
    · rw [if_pos hqk] at hqp
      rw [← hqp]
      exact hv
    · rw [if_neg hqk] at hqp
      rw [← hqp]
      exact h q hq
  · rw [if_neg hex]
    intro p hp
    rcases List.mem_append.mp hp with hp | hp
    · exact h p hp
    · have : p = (k, v) := by simpa using hp
      subst this
      exact hv

theorem urlkey_foldl :
    ∀ (l : List Snap) (m : List (Str × Snap)),
      (∀ p ∈ m, p.2.2 = p.1) →
      ∀ p ∈ l.foldl (fun m s => dictInsert m s.2 s) m, p.2.2 = p.1 := by
  intro l
  induction l with
  | nil => exact fun m hm => hm
  | cons s rest ih =>
    intro m hm
    rw [List.foldl_cons]
    exact ih _ (urlkey_dictInsert m s.2 s rfl hm)

theorem alookup_of_mem_keysND :
    ∀ (m : List (Str × Snap)), m.Pairwise (fun p q => p.1 ≠ q.1) →
      ∀ p ∈ m, alookup p.1 m = some p.2 := by
  intro m
  induction m with
  | nil => intro _ p hp; cases hp
  | cons q m ih =>
    intro h p hp
    rcases List.mem_cons.mp hp with rfl | hp
    · simp [alookup]
    · have hq : q.1 ≠ p.1 := (List.pairwise_cons.mp h).1 p hp
      simp only [alookup, if_neg hq]
      exact ih (List.pairwise_cons.mp h).2 p hp

theorem dictOf_of_distinct :
    ∀ (l : List Snap), l.Pairwise (fun a b => a.2 ≠ b.2) →
      ∀ m : List (Str × Snap), (∀ p ∈ m, ∀ s ∈ l, p.1 ≠ s.2) →
        l.foldl (fun m s => dictInsert m s.2 s) m = m ++ l.map (fun s => (s.2, s)) := by
  intro l
  induction l with
  | nil => intro _ m _; simp
  | cons s rest ih =>
    intro hd m hm
    rw [List.foldl_cons]
    have hnex : ¬ ∃ p ∈ m, p.1 = s.2 := by
      rintro ⟨p, hp, hpk⟩
      exact hm p hp s (List.mem_cons_self s rest) hpk
    have hins : dictInsert m s.2 s = m ++ [(s.2, s)] := by
      unfold dictInsert
      rw [if_neg hnex]
    have hm2 : ∀ p ∈ m ++ [(s.2, s)], ∀ t ∈ rest, p.1 ≠ t.2 := by
      intro p hp t ht
      rcases List.mem_append.mp hp with hp | hp
      · exact hm p hp t (List.mem_cons_of_mem s ht)
      · have : p = (s.2, s) := by simpa using hp
        subst this
        exact (List.pairwise_cons.mp hd).1 t ht
    rw [hins, ih hd.of_cons (m ++ [(s.2, s)]) hm2]
    simp

/-- Claim C5: on a timestamp-sorted input, `get_latest_snapshots` keeps at
most one record per distinct URL, each kept record comes from the input and
carries the greatest timestamp among the input records with its URL, the
output is ascending by timestamp, and the reduction is idempotent. -/
theorem claim_C5_latest_only (l : List Snap) (hs : l.Pairwise snapLe) :
    (get_latest_snapshots l).Pairwise (fun a b => a.2 ≠ b.2) ∧
    (∀ s ∈ get_latest_snapshots l, s ∈ l ∧ ∀ t ∈ l, t.2 = s.2 → snapLe t s) ∧
    (get_latest_snapshots l).Pairwise snapLe ∧
    get_latest_snapshots (get_latest_snapshots l) = get_latest_snapshots l := by
  have hknd := keysND_foldl l [] (List.Pairwise.nil)
  have hurl := urlkey_foldl l [] (fun p hp => absurd hp (List.not_mem_nil p))
  have hvals : ((dictOf l).map Prod.snd).Pairwise (fun a b => a.2 ≠ b.2) := by
    rw [List.pairwise_map]
    refine List.Pairwise.imp_of_mem ?_ hknd
    intro a b ha hb hne
    rw [hurl a ha, hurl b hb]
    exact hne
  have hperm := List.perm_insertionSort snapLe ((dictOf l).map Prod.snd)
  have hdist : (get_latest_snapshots l).Pairwise (fun a b => a.2 ≠ b.2) :=
    (List.Perm.pairwise_iff (fun h => Ne.symm h) hperm).mpr hvals
  have hsorted : (get_latest_snapshots l).Pairwise snapLe :=
    List.sorted_insertionSort snapLe ((dictOf l).map Prod.snd)
  have hmax : ∀ s ∈ get_latest_snapshots l, s ∈ l ∧ ∀ t ∈ l, t.2 = s.2 → snapLe t s := by
    intro s hsmem
    have hvmem : s ∈ (dictOf l).map Prod.snd := (List.mem_insertionSort snapLe).mp hsmem
    obtain ⟨p, hpmem, hps⟩ := List.mem_map.mp hvmem
    have hlook : alookup p.1 (dictOf l) = some s := by
      rw [alookup_of_mem_keysND (dictOf l) hknd p hpmem, hps]
    have hlast : lastWith p.1 l = some s := by
      have h2 := alookup_foldl p.1 l []
      rw [show dictOf l = l.foldl (fun m s => dictInsert m s.2 s) [] from rfl] at hlook
      rw [h2] at hlook
      cases hlw : lastWith p.1 l with
      | some v =>
        rw [hlw] at hlook
        simpa using hlook
      | none =>
        rw [hlw] at hlook
        simp [alookup] at hlook
    have hmem2 := lastWith_mem p.1 l s hlast
    refine ⟨hmem2.1, ?_⟩
    intro t ht htk
    refine lastWith_max p.1 l hs s hlast t ht ?_
    rw [htk, hmem2.2]
  refine ⟨hdist, hmax, hsorted, ?_⟩
  have hfold := dictOf_of_distinct (get_latest_snapshots l) hdist []
    (fun p hp => absurd hp (List.not_mem_nil p))
  have h1 : dictOf (get_latest_snapshots l) =
      (get_latest_snapshots l).map (fun s => (s.2, s)) := by
    unfold dictOf
    rw [hfold]
    simp
  show List.insertionSort snapLe ((dictOf (get_latest_snapshots l)).map Prod.snd) =
    get_latest_snapshots l
  rw [h1, List.map_map]
  rw [show (Prod.snd ∘ fun s : Snap => (s.2, s)) = id from rfl, List.map_id]
  exact List.Sorted.insertionSort_eq hsorted

theorem claim_C5_witness :
    (get_latest_snapshots
        [("20200101000000".data, "a".data), ("20200102000000".data, "a".data)]).Pairwise
      (fun a b => a.2 ≠ b.2) ∧
    (∀ s ∈ get_latest_snapshots
        [("20200101000000".data, "a".data), ("20200102000000".data, "a".data)],
      s ∈ [(("20200101000000".data : Str), ("a".data : Str)),
            ("20200102000000".data, "a".data)] ∧
      ∀ t ∈ [(("20200101000000".data : Str), ("a".data : Str)),
            ("20200102000000".data, "a".data)], t.2 = s.2 → snapLe t s) ∧
    (get_latest_snapshots
        [("20200101000000".data, "a".data), ("20200102000000".data, "a".data)]).Pairwise
      snapLe ∧
    get_latest_snapshots (get_latest_snapshots
        [("20200101000000".data, "a".data), ("20200102000000".data, "a".data)]) =
      get_latest_snapshots
        [("20200101000000".data, "a".data), ("20200102000000".data, "a".data)] :=
  claim_C5_latest_only
    [("20200101000000".data, "a".data), ("20200102000000".data, "a".data)]
    (by decide)

/-! ## Claim C9: non-200 content fetches fail softly -/

theorem download_files_go_completed (cfg : Config) (env : Env)
    (fss : Nat → Nat → Except Unit Response) :
    ∀ (snaps : List Snap) (i0 : Nat),
      (∀ j, j < snaps.length → ∃ st fx,
        download_file cfg env (fss (i0 + j)) (snaps.getD j ([], [])) = .done st fx) →
      ∃ recs, download_files_go cfg env fss i0 snaps = .completed recs ∧
        recs.length = snaps.length ∧
        ∀ j, j < snaps.length →
          ∀ st fx,
            download_file cfg env (fss (i0 + j)) (snaps.getD j ([], [])) = .done st fx →
            recs.getD j (Status.savedOk, []) = (st, fx) := by
  intro snaps
  induction snaps with
  | nil =>
    intro i0 _
    exact ⟨[], rfl, rfl, fun j hj => absurd hj (by simp)⟩
  | cons s rest ih =>
    intro i0 h
    obtain ⟨st0, fx0, h0⟩ := h 0 (by simp)
    have h0s : download_file cfg env (fss i0) s = .done st0 fx0 := by
      simpa using h0
    have hrest : ∀ j, j < rest.length → ∃ st fx,
        download_file cfg env (fss (i0 + 1 + j)) (rest.getD j ([], [])) = .done st fx := by
      intro j hj
      have hstep := h (j + 1) (by simpa using Nat.succ_lt_succ hj)
      have harith : i0 + (j + 1) = i0 + 1 + j := by omega
      rw [harith] at hstep
      simpa using hstep
    obtain ⟨recs, hr1, hr2, hr3⟩ := ih (i0 + 1) hrest
    refine ⟨(st0, fx0) :: recs, ?_, by simp [hr2], ?_⟩
    · simp only [download_files_go, h0s, hr1]
    · intro j hj st fx hdl
      cases j with
      | zero =>
        have heq : DlOutcome.done st0 fx0 = .done st fx := by
          rw [← h0s]
          simpa using hdl
        injection heq with he1 he2
        simp [he1, he2]
      | succ j =>
        have hj2 : j < rest.length := by simpa using Nat.lt_of_succ_lt_succ hj
        have harith : i0 + (j + 1) = i0 + 1 + j := by omega
        rw [harith] at hdl
        have hdl2 : download_file cfg env (fss (i0 + 1 + j)) (rest.getD j ([], [])) =
            .done st fx := by simpa using hdl
        simpa using hr3 j hj2 st fx hdl2

/-- Claim C9: a content fetch that completes with a non-200 status is never
retried (exactly one fetch effect, no sleep), triggers no write, is recorded
as a per-record failure status, and — when every record's processing
completes without aborting — the whole run still finishes with process exit
code 0. -/
theorem claim_C9_non200_continues (cfg : Config) (env : Env)
    (fromD toD : Option Str) (latestOnly : Bool) (cache : Option (List Snap))
    (idxF : Nat → Except Unit IndexResp) (fss : Nat → Nat → Except Unit Response)
    (snaps : List Snap) (i : Nat) (resp : Response)
    (hidx : get_snapshot_list cfg.retries cfg.delay cfg.noFail fromD toD latestOnly
        cache idxF = .ok snaps)
    (hall : ∀ j, j < snaps.length → ∃ st fx,
      download_file cfg env (fss j) (snaps.getD j ([], [])) = .done st fx)
    (hi : i < snaps.length)
    (hfetch : fss i 0 = .ok resp) (hcode : resp.status_code ≠ 200)
    (hskip : (snaps.getD i ([], [])).1 ∉ cfg.skipTimestamps)
    (hp : env.isfile (primary_fpath cfg (snaps.getD i ([], []))) = false)
    (hf : env.isfile (fallback_fpath cfg (snaps.getD i ([], []))) = false)
    (hdry : cfg.dryRun = false) :
    download_file cfg env (fss i) (snaps.getD i ([], [])) =
      .done (.httpError resp.status_code)
        [.fetch (snapshot_url (snaps.getD i ([], [])).1 (snaps.getD i ([], [])).2)] ∧
    (∃ recs, download_files cfg env fss snaps = .completed recs ∧
      recs.length = snaps.length ∧
      recs.getD i (Status.savedOk, []) =
        (.httpError resp.status_code,
          [.fetch (snapshot_url (snaps.getD i ([], [])).1 (snaps.getD i ([], [])).2)])) ∧
    main_run cfg env fromD toD latestOnly cache idxF fss = 0 := by
  have hrun := retryRun_firstOk cfg.retries cfg.delay cfg.noFail true (fss i) resp hfetch
  rw [fallback_fpath] at hf
  have hrec : download_file cfg env (fss i) (snaps.getD i ([], [])) =
      .done (.httpError resp.status_code)
        [.fetch (snapshot_url (snaps.getD i ([], [])).1 (snaps.getD i ([], [])).2)] := by
    simp only [download_file, hskip, hp, hf, hdry, hrun, if_neg, Bool.false_eq_true,
      if_false, hcode, ite_true, ite_false, retryEffects]
    simp [hcode]
  obtain ⟨recs, hc1, hc2, hc3⟩ := download_files_go_completed cfg env fss snaps 0
    (by simpa using hall)
  have hrec0 : download_file cfg env (fss (0 + i)) (snaps.getD i ([], [])) =
      .done (.httpError resp.status_code)
        [.fetch (snapshot_url (snaps.getD i ([], [])).1 (snaps.getD i ([], [])).2)] := by
    rw [Nat.zero_add]
    exact hrec
  refine ⟨hrec, ⟨recs, hc1, hc2, hc3 i hi _ _ hrec0⟩, ?_⟩
  have hc1b : download_files cfg env fss snaps = RunResult.completed recs := hc1
  have hmain : main_run cfg env fromD toD latestOnly cache idxF fss =
      (match download_files cfg env fss snaps with
        | RunResult.completed _ => 0
        | RunResult.aborted _ c => c) := by
    unfold main_run
    rw [hidx]
  rw [hmain, hc1b]

theorem claim_C9_witness :
    main_run ⟨"d".data, [], false, 0, 0, false, Platform.posix, fun _ => "h".data⟩
        ⟨fun _ => false, true, true⟩ none none false
        (some [("t".data, "o".data), ("2".data, "u".data)])
        (fun _ => Except.error ()) (fun _ _ => Except.ok ⟨404, [1]⟩) = 0 := by
  refine (claim_C9_non200_continues
    ⟨"d".data, [], false, 0, 0, false, Platform.posix, fun _ => "h".data⟩
    ⟨fun _ => false, true, true⟩ none none false
    (some [("t".data, "o".data), ("2".data, "u".data)])
    (fun _ => Except.error ()) (fun _ _ => Except.ok ⟨404, [1]⟩)
    [("2".data, "u".data)] 0 ⟨404, [1]⟩ rfl ?_ (by decide) rfl (by decide)
    (by decide) rfl rfl rfl).2.2
  intro j hj
  have hj0 : j = 0 := by simpa using hj
  subst hj0
  exact ⟨.httpError 404, [.fetch (snapshot_url "2".data "u".data)], rfl⟩

end Yawbdl
